import Mathlib

/-!
# Verification of the TOTP core (`src/utils/totp.ts`)

Shallow embedding of the Base32 decoder, the TOTP engine (HMAC-SHA1 based
one-time-password generation), the time-remaining helper and the validation
predicate from `src/utils/totp.ts`.  Strings are modelled as `List Char`,
byte sequences (`Uint8Array`) as `List Nat` with entries below 256, and
JavaScript 32-bit integer arithmetic as `Nat` arithmetic reduced `% 2 ^ 32`
at the points where the source's integer operations wrap.
-/

/-- The Base32 alphabet from the source: `const base32Chars = "ABC…234567"`. -/
def base32Chars : String := "ABCDEFGHIJKLMNOPQRSTUVWXYZ234567"

/-- The alphabet as a character list (JS strings are indexed by character). -/
def base32CharsList : List Char := base32Chars.toList

/-- The character class of the JavaScript regular expression `\s`:
whitespace as matched by `replace(/\s/g, '')` in the source. -/
def isJsWhitespace (c : Char) : Bool :=
  c = ' ' || c = '\t' || c = '\n' || c = '\r' || c = '\x0b' || c = '\x0c' ||
  c = '\u00a0' || c = '\u1680' || ('\u2000' ≤ c && c ≤ '\u200a') ||
  c = '\u2028' || c = '\u2029' || c = '\u202f' || c = '\u205f' ||
  c = '\u3000' || c = '\ufeff'

/-- `replace(/=+$/, "")`: remove the maximal trailing run of `'='`. -/
def stripTrailingEq (s : List Char) : List Char :=
  (s.reverse.dropWhile (fun c => c = '=')).reverse

/-- The normalization performed by `base32ToBuffer`, in the source's order:
`str.toUpperCase().replace(/=+$/, "")` followed by `.replace(/\s/g, '')`.
(For code points below U+0080 — the only ones relevant to the alphabet —
JS `toUpperCase` agrees with mapping `Char.toUpper`.) -/
def cleanStr (s : List Char) : List Char :=
  (stripTrailingEq (s.map Char.toUpper)).filter (fun c => !(isJsWhitespace c))

/-- `base32Chars.indexOf(c)`: position of `c` in the alphabet, `none`
standing for the source's `-1`. -/
def b32Index (c : Char) : Option Nat :=
  if c ∈ base32CharsList then some (base32CharsList.indexOf c) else none

/-- Loop state of `base32ToBuffer`: the bit accumulator `value` (the low
32 bits, as JS bitwise operators work on 32-bit integers), the pending bit
count `bits`, the write position `index` and the pre-sized output buffer. -/
structure B32State where
  value  : Nat
  bits   : Nat
  index  : Nat
  buffer : List Nat

/-- One iteration of the `for` loop of `base32ToBuffer`.  An out-of-range
write on a `Uint8Array` is silently ignored, exactly as `List.set` ignores
an out-of-range position. -/
def b32Step (st : B32State) (c : Char) : B32State :=
  match b32Index c with
  | none => st
  | some idx =>
    let value := ((st.value <<< 5) ||| idx) % 2 ^ 32
    let bits := st.bits + 5
    if 8 ≤ bits then
      { value := value, bits := bits - 8, index := st.index + 1,
        buffer := st.buffer.set st.index ((value >>> (bits - 8)) &&& 255) }
    else
      { value := value, bits := bits, index := st.index, buffer := st.buffer }

/-- `base32ToBuffer` from the source: normalize, allocate a zero-filled
buffer of `(cleanStr.length * 5) / 8 | 0` bytes, run the decoding loop over
it and return the (whole) buffer. -/
def base32ToBuffer (s : List Char) : List Nat :=
  let clean := cleanStr s
  (clean.foldl b32Step
    ⟨0, 0, 0, List.replicate (clean.length * 5 / 8) 0⟩).buffer

/-- State of the spec's description of the decoding scan: an (unbounded)
bit accumulator, a bit count, and the bytes emitted so far. -/
structure ScanState where
  value : Nat
  bits  : Nat
  out   : List Nat

/-- Modelled from the spec: one step of the reference lenient scan — skip a
character outside the alphabet; otherwise shift the accumulator left by 5,
OR in the 5-bit value, and when the bit count reaches 8 emit the top 8
accumulated bits (shifted right by bit count − 8, masked to 8 bits). -/
def specScanStep (st : ScanState) (c : Char) : ScanState :=
  match b32Index c with
  | none => st
  | some idx =>
    let value := (st.value <<< 5) ||| idx
    let bits := st.bits + 5
    if 8 ≤ bits then
      { value := value, bits := bits - 8,
        out := st.out ++ [(value >>> (bits - 8)) &&& 255] }
    else
      { value := value, bits := bits, out := st.out }

/-- The bytes actually produced by the emission loop on the source's
normalized input (no buffer pre-sizing involved). -/
def emittedBytes (s : List Char) : List Nat :=
  ((cleanStr s).foldl specScanStep ⟨0, 0, []⟩).out

/-- Modelled from the spec: input normalization in the order the spec
states it — uppercase, strip all whitespace, then strip trailing `'='`. -/
def specNormalize (s : List Char) : List Char :=
  stripTrailingEq ((s.map Char.toUpper).filter (fun c => !(isJsWhitespace c)))

/-- Modelled from the spec: the reference lenient RFC 4648 decode the spec
describes — spec-order normalization followed by the emission scan, the
emitted bytes being the whole result. -/
def specBase32Decode (s : List Char) : List Nat :=
  ((specNormalize s).foldl specScanStep ⟨0, 0, []⟩).out

/-- Big-endian serialization of `n` into `k` bytes (low `8·k` bits of `n`). -/
def beBytes (k n : Nat) : List Nat :=
  match k with
  | 0 => []
  | k + 1 => beBytes k (n / 256) ++ [n % 256]

/-- Big-endian interpretation of a byte list, inverse to `beBytes`. -/
def beValue (l : List Nat) : Nat :=
  l.foldl (fun a b => 256 * a + b) 0

/-- The 8-byte message of `generateTOTP`: `view.setUint32(0, 0, false)`
and `view.setUint32(4, time, false)` — the high four bytes are written as
zero and the low four hold `ToUint32(time) = time % 2^32` big-endian. -/
def timeBuffer (time : Nat) : List Nat :=
  [0, 0, 0, 0] ++ beBytes 4 time

/-- Modelled from the spec: the full 64-bit big-endian representation of a
counter value, used to compare the source's serialization against the
spec's "8-byte big-endian buffer" claim. -/
def be64 (n : Nat) : List Nat :=
  beBytes 8 n

/-- `Math.round(new Date().getTime() / 1000.0)` with the clock reading
given in milliseconds.  For every integer millisecond count the IEEE
double `ms / 1000.0` is within `2⁻²⁰` of the rational `ms / 1000`, while a
non-half-integer rational `ms / 1000` is at least `1/1000` away from the
nearest half-integer, and half-integer values are represented exactly; so
`Math.round` (round half towards positive infinity) computes exactly
`⌊(ms + 500) / 1000⌋`. -/
def epochOf (nowMs : Nat) : Nat :=
  (nowMs + 500) / 1000

/-- Decimal digits of `n`, most significant first, with a structural fuel
argument (any `fuel > n` is enough, as the digit count never exceeds `n`). -/
def toDecimalStringAux : Nat → Nat → List Char
  | 0, _ => []
  | fuel + 1, n =>
    if n < 10 then [Char.ofNat (48 + n)]
    else toDecimalStringAux fuel (n / 10) ++ [Char.ofNat (48 + n % 10)]

/-- Decimal rendering of a natural number, as JS `Number.prototype.toString`
produces for a nonnegative integer. -/
def toDecimalString (n : Nat) : List Char :=
  toDecimalStringAux (n + 1) n

/-- `String.prototype.padStart(len, c)` (for a one-character pad string). -/
def padStart (len : Nat) (c : Char) (s : List Char) : List Char :=
  List.replicate (len - s.length) c ++ s

/-- The number denoted by a list of decimal digit characters. -/
def decimalValue (s : List Char) : Nat :=
  s.foldl (fun a c => 10 * a + (c.toNat - 48)) 0

/-- A string of exactly six decimal digits — the shape of every successful
`generateTOTP` result, distinguishing it from the two sentinels. -/
def isSixDigitCode (s : String) : Bool :=
  s.length = 6 && s.toList.all (fun c => '0' ≤ c && c ≤ '9')

/-- `const offset = hmac[hmac.length - 1] & 0xf` (a JS read of `undefined`
coerced by `&` yields 0, which `List.getD _ 0` models). -/
def dtOffset (digest : List Nat) : Nat :=
  (digest.getD (digest.length - 1) 0) &&& 0xf

/-- The dynamically truncated 31-bit integer `binary` of `generateTOTP`. -/
def dtBinary (digest : List Nat) : Nat :=
  let offset := dtOffset digest
  (((digest.getD offset 0) &&& 0x7f) <<< 24) |||
  (((digest.getD (offset + 1) 0) &&& 0xff) <<< 16) |||
  (((digest.getD (offset + 2) 0) &&& 0xff) <<< 8) |||
  ((digest.getD (offset + 3) 0) &&& 0xff)

/-- The tail of `generateTOTP`: `otp = binary % 1000000` rendered by
`otp.toString().padStart(6, "0")`. -/
def truncateCode (digest : List Nat) : String :=
  String.mk (padStart 6 '0' (toDecimalString (dtBinary digest % 1000000)))

/-- Modelled from the spec: 32-bit left rotation, a SHA-1 primitive. -/
def rotl32 (n x : Nat) : Nat :=
  (((x % 2 ^ 32) <<< n) ||| ((x % 2 ^ 32) >>> (32 - n))) % 2 ^ 32

/-- Modelled from the spec: the SHA-1 round functions (FIPS 180-1 §7). -/
def sha1F (t b c d : Nat) : Nat :=
  if t < 20 then (b &&& c) ||| ((b ^^^ 0xFFFFFFFF) &&& d)
  else if t < 40 then b ^^^ c ^^^ d
  else if t < 60 then (b &&& c) ||| (b &&& d) ||| (c &&& d)
  else b ^^^ c ^^^ d

/-- Modelled from the spec: the SHA-1 round constants (FIPS 180-1 §7). -/
def sha1K (t : Nat) : Nat :=
  if t < 20 then 0x5A827999
  else if t < 40 then 0x6ED9EBA1
  else if t < 60 then 0x8F1BBCDC
  else 0xCA62C1D6

/-- Modelled from the spec: one extension step of the SHA-1 message
schedule, `W[t] = rotl1(W[t−3] ⊕ W[t−8] ⊕ W[t−14] ⊕ W[t−16])`. -/
def sha1ScheduleStep (ws : List Nat) (t : Nat) : List Nat :=
  ws ++ [rotl32 1 (ws.getD (t + 13) 0 ^^^ ws.getD (t + 8) 0 ^^^
                   ws.getD (t + 2) 0 ^^^ ws.getD t 0)]

/-- Modelled from the spec: the 80-word SHA-1 message schedule grown from
the 16 words of one block. -/
def sha1Schedule (w16 : List Nat) : List Nat :=
  (List.range 64).foldl sha1ScheduleStep w16

/-- Big-endian 32-bit words of a byte list (one SHA-1 block = 16 words). -/
def bytesToWords (l : List Nat) : List Nat :=
  (List.range (l.length / 4)).map fun i =>
    ((l.getD (4 * i) 0) <<< 24) ||| ((l.getD (4 * i + 1) 0) <<< 16) |||
    ((l.getD (4 * i + 2) 0) <<< 8) ||| (l.getD (4 * i + 3) 0)

/-- The five 32-bit chaining words of SHA-1. -/
structure Sha1State where
  a : Nat
  b : Nat
  c : Nat
  d : Nat
  e : Nat

/-- Modelled from the spec: one of the 80 SHA-1 compression rounds. -/
def sha1Round (ws : List Nat) (st : Sha1State) (t : Nat) : Sha1State :=
  let temp :=
    (rotl32 5 st.a + sha1F t st.b st.c st.d + st.e + sha1K t + ws.getD t 0) % 2 ^ 32
  ⟨temp, st.a, rotl32 30 st.b, st.c, st.d⟩

/-- Modelled from the spec: SHA-1 compression of one 64-byte block. -/
def sha1Block (h : Sha1State) (block : List Nat) : Sha1State :=
  let ws := sha1Schedule (bytesToWords block)
  let f := (List.range 80).foldl (sha1Round ws) h
  ⟨(h.a + f.a) % 2 ^ 32, (h.b + f.b) % 2 ^ 32, (h.c + f.c) % 2 ^ 32,
   (h.d + f.d) % 2 ^ 32, (h.e + f.e) % 2 ^ 32⟩

/-- Modelled from the spec: SHA-1 padding — `0x80`, zeros to 56 mod 64,
then the bit length as 8 bytes big-endian. -/
def sha1Pad (msg : List Nat) : List Nat :=
  msg ++ [128] ++ List.replicate ((64 - (msg.length + 9) % 64) % 64) 0 ++
    beBytes 8 (8 * msg.length)

/-- Split a byte list into 64-byte blocks, with a structural fuel argument
(any `fuel ≥ l.length` is enough, as each step consumes at least one byte). -/
def toBlocksAux : Nat → List Nat → List (List Nat)
  | 0, _ => []
  | _, [] => []
  | fuel + 1, x :: rest => (x :: rest).take 64 :: toBlocksAux fuel ((x :: rest).drop 64)

/-- Split a byte list into 64-byte blocks. -/
def toBlocks (l : List Nat) : List (List Nat) :=
  toBlocksAux l.length l

/-- Modelled from the spec: the SHA-1 hash of a byte sequence (FIPS 180-1),
20 bytes of output. -/
def sha1 (msg : List Nat) : List Nat :=
  let final := (toBlocks (sha1Pad msg)).foldl sha1Block
    ⟨0x67452301, 0xEFCDAB89, 0x98BADCFE, 0x10325476, 0xC3D2E1F0⟩
  beBytes 4 final.a ++ beBytes 4 final.b ++ beBytes 4 final.c ++
    beBytes 4 final.d ++ beBytes 4 final.e

/-- Modelled from the spec: HMAC-SHA1 (RFC 2104).  The source's `hmacSha1`
delegates the primitive to the platform WebCrypto API
(`window.crypto.subtle`), whose code is not part of the repository; the
spec names HMAC-SHA1 per RFC 2104 as the algorithm, modelled here with the
standard 64-byte block, `0x36`/`0x5c` pads and nested SHA-1. -/
def hmacSha1 (key msg : List Nat) : List Nat :=
  let key0 := if 64 < key.length then sha1 key else key
  let key64 := key0 ++ List.replicate (64 - key0.length) 0
  sha1 ((key64.map (fun b => b ^^^ 0x5c)) ++
    sha1 ((key64.map (fun b => b ^^^ 0x36)) ++ msg))

/-- `generateTOTP` parametrized by the keyed-hash primitive, which the
source obtains from the platform and whose failure (`catch`) the source
maps to the `"ERROR"` sentinel; `none` models a thrown failure. -/
def generateTOTPWith (hm : List Nat → List Nat → Option (List Nat))
    (secret : List Char) (nowMs windowSeconds : Nat) : String :=
  let keyBytes := base32ToBuffer secret
  if keyBytes.length = 0 then "INVALID"
  else
    let time := epochOf nowMs / windowSeconds
    match hm keyBytes (timeBuffer time) with
    | none => "ERROR"
    | some hmac => truncateCode hmac

/-- `generateTOTP` with the modelled (total) HMAC-SHA1, as a function of
the secret, the clock reading in milliseconds and the window length. -/
def generateTOTP (secret : List Char) (nowMs windowSeconds : Nat) : String :=
  generateTOTPWith (fun k m => some (hmacSha1 k m)) secret nowMs windowSeconds

/-- `getTimeRemaining` from the source:
`windowSeconds - (epoch % windowSeconds)`. -/
def getTimeRemaining (nowMs windowSeconds : Nat) : Nat :=
  windowSeconds - epochOf nowMs % windowSeconds

/-- The character class `[A-Z2-7]` under the case-insensitive flag `i`. -/
def isB32AlphaChar (c : Char) : Bool :=
  ('A' ≤ c && c ≤ 'Z') || ('a' ≤ c && c ≤ 'z') || ('2' ≤ c && c ≤ '7')

/-- `isValidBase32` from the source: `!str` is false on the empty string,
then `/^[A-Z2-7]+=*$/i` is tested on the string with whitespace removed.
Because `'='` is not in `[A-Z2-7]` (even case-insensitively), the regular
expression matches exactly when the maximal leading run of alphabet
characters is nonempty and everything after it is `'='`. -/
def isValidBase32 (s : List Char) : Bool :=
  if s.isEmpty then false
  else
    let t := s.filter (fun c => !(isJsWhitespace c))
    !(t.takeWhile isB32AlphaChar).isEmpty &&
      (t.dropWhile isB32AlphaChar).all (fun c => c = '=')

/-- The buffer-threading loop state corresponding to a pure scan state:
accumulator reduced mod `2^32`, write position at the end of the emitted
bytes, buffer holding the emitted bytes followed by untouched zeros. -/
def mkBuf (st : ScanState) (cap : Nat) : B32State :=
  ⟨st.value % 2 ^ 32, st.bits, st.out.length,
   st.out ++ List.replicate (cap - st.out.length) 0⟩

/-! ## Generic helper lemmas -/

theorem beValue_append_singleton (l : List Nat) (x : Nat) :
    beValue (l ++ [x]) = 256 * beValue l + x := by
  simp [beValue, List.foldl_append]

theorem beValue_beBytes (k n : Nat) : beValue (beBytes k n) = n % 256 ^ k := by
  induction k generalizing n with
  | zero => simp [beBytes, beValue, Nat.mod_one]
  | succ k ih =>
    rw [beBytes, beValue_append_singleton, ih, pow_succ, Nat.mul_comm (256 ^ k) 256,
      Nat.mod_mul]
    ring

theorem beBytes_length (k n : Nat) : (beBytes k n).length = k := by
  induction k generalizing n with
  | zero => simp [beBytes]
  | succ k ih => simp [beBytes, ih]

theorem land_255_eq_mod (x : Nat) : x &&& 255 = x % 256 := by
  have h : (255 : Nat) = 2 ^ 8 - 1 := by norm_num
  have h2 : (256 : Nat) = 2 ^ 8 := by norm_num
  rw [h, h2, Nat.and_pow_two_sub_one_eq_mod]

theorem land_15_eq_mod (x : Nat) : x &&& 15 = x % 16 := by
  have h : (15 : Nat) = 2 ^ 4 - 1 := by norm_num
  have h2 : (16 : Nat) = 2 ^ 4 := by norm_num
  rw [h, h2, Nat.and_pow_two_sub_one_eq_mod]

theorem land_127_eq_mod (x : Nat) : x &&& 127 = x % 128 := by
  have h : (127 : Nat) = 2 ^ 7 - 1 := by norm_num
  have h2 : (128 : Nat) = 2 ^ 7 := by norm_num
  rw [h, h2, Nat.and_pow_two_sub_one_eq_mod]

theorem digitChar_toNat {r : Nat} (h : r < 10) : (Char.ofNat (48 + r)).toNat = 48 + r := by
  interval_cases r <;> rfl

theorem digitChar_isDigit {r : Nat} (h : r < 10) :
    '0' ≤ Char.ofNat (48 + r) ∧ Char.ofNat (48 + r) ≤ '9' := by
  interval_cases r <;> exact ⟨by decide, by decide⟩

theorem toDecimalStringAux_ne_nil (fuel n : Nat) (h : n < fuel) :
    toDecimalStringAux fuel n ≠ [] := by
  cases fuel with
  | zero => omega
  | succ fuel =>
    rw [toDecimalStringAux]
    split <;> simp

theorem toDecimalString_ne_nil (n : Nat) : toDecimalString n ≠ [] :=
  toDecimalStringAux_ne_nil (n + 1) n (by omega)

theorem decimalValue_toDecimalStringAux :
    ∀ fuel n, n < fuel → decimalValue (toDecimalStringAux fuel n) = n := by
  intro fuel
  induction fuel with
  | zero => intro n h; omega
  | succ fuel ih =>
    intro n h
    rw [toDecimalStringAux]
    split
    · next h10 =>
      simp [decimalValue, digitChar_toNat h10]
    · next h10 =>
      have hdiv : n / 10 < fuel := by
        have : n / 10 < n := Nat.div_lt_self (by omega) (by omega)
        omega
      have hr : n % 10 < 10 := Nat.mod_lt _ (by omega)
      simp only [decimalValue, List.foldl_append, List.foldl_cons, List.foldl_nil]
      have hval := ih (n / 10) hdiv
      simp only [decimalValue] at hval
      rw [hval, digitChar_toNat hr]
      omega

theorem decimalValue_toDecimalString (n : Nat) :
    decimalValue (toDecimalString n) = n :=
  decimalValue_toDecimalStringAux (n + 1) n (by omega)

theorem toDecimalStringAux_digits :
    ∀ fuel n, ∀ c ∈ toDecimalStringAux fuel n, '0' ≤ c ∧ c ≤ '9' := by
  intro fuel
  induction fuel with
  | zero => intro n c hc; simp [toDecimalStringAux] at hc
  | succ fuel ih =>
    intro n c hc
    rw [toDecimalStringAux] at hc
    split at hc
    · next h10 =>
      simp at hc
      subst hc
      exact digitChar_isDigit h10
    · next h10 =>
      have hr : n % 10 < 10 := Nat.mod_lt _ (by omega)
      rcases List.mem_append.1 hc with h1 | h2
      · exact ih (n / 10) c h1
      · simp at h2
        subst h2
        exact digitChar_isDigit hr

theorem toDecimalString_digits (n : Nat) :
    ∀ c ∈ toDecimalString n, '0' ≤ c ∧ c ≤ '9' :=
  toDecimalStringAux_digits (n + 1) n

theorem toDecimalStringAux_length_le :
    ∀ fuel k n : Nat, n < 10 ^ k → (toDecimalStringAux fuel n).length ≤ max k 1 := by
  intro fuel
  induction fuel with
  | zero => intro k n h; simp [toDecimalStringAux]
  | succ fuel ih =>
    intro k n h
    rw [toDecimalStringAux]
    split
    · simp
    · next hn =>
      have hk : 2 ≤ k := by
        by_contra hk0
        have hk01 : k = 0 ∨ k = 1 := by omega
        rcases hk01 with hk01 | hk01 <;> subst hk01 <;> norm_num at h <;> omega
      have hdiv : n / 10 < 10 ^ (k - 1) := by
        rw [Nat.div_lt_iff_lt_mul (by omega)]
        calc n < 10 ^ k := h
        _ = 10 ^ (k - 1) * 10 := by
          rw [← pow_succ]
          congr 1
          omega
      have := ih (k - 1) (n / 10) hdiv
      simp only [List.length_append, List.length_cons, List.length_nil]
      omega

theorem toDecimalString_length_le (k : Nat) :
    ∀ n : Nat, n < 10 ^ k → (toDecimalString n).length ≤ max k 1 := by
  intro n h
  exact toDecimalStringAux_length_le (n + 1) k n h

theorem decimalValue_padStart_zeros (s : List Char) (len : Nat) :
    decimalValue (padStart len '0' s) = decimalValue s := by
  have hz : ∀ k, List.foldl (fun a c => 10 * a + (c.toNat - 48)) 0
      (List.replicate k '0') = 0 := by
    intro k
    induction k with
    | zero => simp
    | succ k ihk => simpa [List.replicate_succ] using ihk
  simp [padStart, decimalValue, List.foldl_append, hz]

theorem truncateCode_toList (d : List Nat) :
    (truncateCode d).toList = padStart 6 '0' (toDecimalString (dtBinary d % 1000000)) :=
  rfl

theorem truncateCode_length (d : List Nat) : (truncateCode d).length = 6 := by
  have hotp : dtBinary d % 1000000 < 10 ^ 6 := by
    have : dtBinary d % 1000000 < 1000000 := Nat.mod_lt _ (by norm_num)
    simpa using this
  have hlen := toDecimalString_length_le 6 (dtBinary d % 1000000) hotp
  simp only [show max 6 1 = 6 by norm_num] at hlen
  show (String.mk (padStart 6 '0' (toDecimalString (dtBinary d % 1000000)))).length = 6
  simp [String.length, padStart]
  omega

theorem truncateCode_sixDigit (d : List Nat) :
    isSixDigitCode (truncateCode d) = true := by
  simp only [isSixDigitCode, Bool.and_eq_true, decide_eq_true_eq]
  refine ⟨truncateCode_length d, ?_⟩
  rw [List.all_eq_true]
  intro c hc
  rw [truncateCode_toList] at hc
  simp only [padStart] at hc
  rcases List.mem_append.1 hc with h1 | h2
  · have : c = '0' := List.eq_of_mem_replicate h1
    subst this
    simp
  · have := toDecimalString_digits _ c h2
    simp only [Bool.and_eq_true, decide_eq_true_eq]
    exact this

theorem truncateCode_ne_INVALID (d : List Nat) : truncateCode d ≠ "INVALID" := by
  intro h
  have := congrArg String.length h
  rw [truncateCode_length] at this
  exact absurd this (by decide)

theorem truncateCode_ne_ERROR (d : List Nat) : truncateCode d ≠ "ERROR" := by
  intro h
  have := congrArg String.length h
  rw [truncateCode_length] at this
  exact absurd this (by decide)

theorem decimalValue_truncateCode (d : List Nat) :
    decimalValue (truncateCode d).toList = dtBinary d % 1000000 := by
  rw [truncateCode_toList, decimalValue_padStart_zeros, decimalValue_toDecimalString]

theorem epochOf_eq_round (ms : Nat) : (epochOf ms : ℤ) = round ((ms : ℚ) / 1000) := by
  have hq : ((ms : ℚ) / 1000 + 1 / 2) = ((ms : ℚ) + 500) / 1000 := by ring
  rw [round_eq, hq, eq_comm, Int.floor_eq_iff]
  have h1 : epochOf ms * 1000 ≤ ms + 500 := by unfold epochOf; omega
  have h2 : ms + 500 < (epochOf ms + 1) * 1000 := by unfold epochOf; omega
  constructor
  · rw [le_div_iff₀ (by norm_num : (0:ℚ) < 1000)]
    exact_mod_cast h1
  · rw [div_lt_iff₀ (by norm_num : (0:ℚ) < 1000)]
    exact_mod_cast h2

/-! ## The decoding loop: buffer-threading fold versus the emission scan -/

theorem shiftLeft_lor_mod_two_pow (v idx : Nat) :
    (((v % 2 ^ 32) <<< 5) ||| idx) % 2 ^ 32 = ((v <<< 5) ||| idx) % 2 ^ 32 := by
  apply Nat.eq_of_testBit_eq
  intro i
  simp only [Nat.testBit_mod_two_pow, Nat.testBit_or, Nat.testBit_shiftLeft]
  by_cases hi : i < 32
  · by_cases h5 : 5 ≤ i
    · simp [hi, h5, show i - 5 < 32 by omega]
    · simp [hi, h5]
  · simp [hi]

theorem mod_two_pow_shiftRight_land (x k : Nat) (hk : k ≤ 4) :
    ((x % 2 ^ 32) >>> k) &&& 255 = (x >>> k) &&& 255 := by
  apply Nat.eq_of_testBit_eq
  intro i
  have h255 : (255 : Nat) = 2 ^ 8 - 1 := by norm_num
  simp only [h255, Nat.testBit_and, Nat.testBit_two_pow_sub_one, Nat.testBit_shiftRight,
    Nat.testBit_mod_two_pow]
  by_cases hi : i < 8
  · simp [hi, show k + i < 32 by omega]
  · simp [hi]

theorem set_append_replicate (out : List Nat) (k b : Nat) (hk : 0 < k) :
    (out ++ List.replicate k 0).set out.length b
      = (out ++ [b]) ++ List.replicate (k - 1) 0 := by
  induction out with
  | nil =>
    cases k with
    | zero => omega
    | succ k => simp [List.replicate_succ]
  | cons x t ih =>
    simpa using ih

theorem b32Step_mkBuf (st : ScanState) (cap : Nat) (c : Char)
    (hb : st.bits < 8) (hcap : 8 * st.out.length + st.bits + 5 ≤ 8 * cap + 7) :
    b32Step (mkBuf st cap) c = mkBuf (specScanStep st c) cap := by
  cases hidx : b32Index c with
  | none => simp [b32Step, specScanStep, hidx, mkBuf]
  | some idx =>
    have hval : (((st.value % 2 ^ 32) <<< 5) ||| idx) % 2 ^ 32
        = ((st.value <<< 5) ||| idx) % 2 ^ 32 := shiftLeft_lor_mod_two_pow st.value idx
    by_cases h8 : 8 ≤ st.bits + 5
    · have hlen : st.out.length < cap := by omega
      have hbyte : (((((st.value % 2 ^ 32) <<< 5) ||| idx) % 2 ^ 32) >>> (st.bits + 5 - 8)) &&& 255
          = (((st.value <<< 5) ||| idx) >>> (st.bits + 5 - 8)) &&& 255 := by
        rw [hval]
        exact mod_two_pow_shiftRight_land _ _ (by omega)
      simp only [b32Step, specScanStep, hidx, mkBuf, if_pos h8]
      rw [B32State.mk.injEq]
      refine ⟨hval, rfl, by simp, ?_⟩
      rw [hbyte, set_append_replicate _ _ _ (by omega)]
      have hcount : cap - st.out.length - 1
          = cap - (st.out ++ [((st.value <<< 5 ||| idx) >>> (st.bits + 5 - 8)) &&& 255]).length := by
        simp
        omega
      rw [hcount]
    · simp only [b32Step, specScanStep, hidx, mkBuf, if_neg h8]
      rw [B32State.mk.injEq]
      exact ⟨hval, rfl, rfl, rfl⟩

theorem specScanStep_inv (st : ScanState) (c : Char) (hb : st.bits < 8) :
    (specScanStep st c).bits < 8 ∧
      8 * (specScanStep st c).out.length + (specScanStep st c).bits
        ≤ 8 * st.out.length + st.bits + 5 := by
  cases hidx : b32Index c with
  | none =>
    simp only [specScanStep, hidx]
    omega
  | some idx =>
    by_cases h8 : 8 ≤ st.bits + 5
    · simp only [specScanStep, hidx, if_pos h8, List.length_append, List.length_cons,
        List.length_nil]
      omega
    · simp only [specScanStep, hidx, if_neg h8]
      omega

theorem foldl_b32_mkBuf (l : List Char) :
    ∀ (st : ScanState) (cap : Nat), st.bits < 8 →
      8 * st.out.length + st.bits + 5 * l.length ≤ 8 * cap + 7 →
      l.foldl b32Step (mkBuf st cap) = mkBuf (l.foldl specScanStep st) cap := by
  induction l with
  | nil => intro st cap _ _; rfl
  | cons c l ih =>
    intro st cap hb hcap
    have hlen : (c :: l).length = l.length + 1 := rfl
    rw [hlen] at hcap
    simp only [List.foldl_cons]
    rw [b32Step_mkBuf st cap c hb (by omega)]
    obtain ⟨h1, h2⟩ := specScanStep_inv st c hb
    exact ih (specScanStep st c) cap h1 (by omega)

theorem base32ToBuffer_eq_padded (s : List Char) :
    base32ToBuffer s = emittedBytes s ++
      List.replicate ((cleanStr s).length * 5 / 8 - (emittedBytes s).length) 0 := by
  have hb : ((⟨0, 0, []⟩ : ScanState)).bits < 8 := by norm_num
  have hbudget : 8 * ((⟨0, 0, []⟩ : ScanState)).out.length + ((⟨0, 0, []⟩ : ScanState)).bits
      + 5 * (cleanStr s).length ≤ 8 * ((cleanStr s).length * 5 / 8) + 7 := by
    simp only [List.length_nil]
    omega
  have key := foldl_b32_mkBuf (cleanStr s) ⟨0, 0, []⟩ ((cleanStr s).length * 5 / 8) hb hbudget
  unfold base32ToBuffer emittedBytes
  show (List.foldl b32Step (mkBuf ⟨0, 0, []⟩ ((cleanStr s).length * 5 / 8)) (cleanStr s)).buffer = _
  rw [key]
  rfl

theorem foldl_specScanStep_invalid (l : List Char) :
    ∀ st : ScanState, (∀ c ∈ l, b32Index c = none) → l.foldl specScanStep st = st := by
  induction l with
  | nil => intro st _; rfl
  | cons c l ih =>
    intro st h
    have hc : b32Index c = none := h c (by simp)
    simp only [List.foldl_cons, specScanStep, hc]
    exact ih st (fun x hx => h x (by simp [hx]))

/-! ## Helpers for the counter serialization and truncation bounds -/

theorem beBytes_add (j k n : Nat) :
    beBytes (j + k) n = beBytes j (n / 256 ^ k) ++ beBytes k n := by
  induction k generalizing n with
  | zero => simp [beBytes]
  | succ k ih =>
    show beBytes (j + k + 1) n = _
    rw [beBytes, ih (n / 256)]
    rw [show n / 256 / 256 ^ k = n / 256 ^ (k + 1) by
      rw [Nat.div_div_eq_div_mul, pow_succ, Nat.mul_comm 256 (256 ^ k)]]
    simp [beBytes]

theorem getD_lt_of_bound {l : List Nat} {i : Nat} (hi : i < l.length)
    (hb : ∀ b ∈ l, b < 256) : l.getD i 0 < 256 := by
  rw [List.getD_eq_getElem?_getD, List.getElem?_eq_getElem hi]
  exact hb _ (List.getElem_mem hi)

theorem dtOffset_le (digest : List Nat) : dtOffset digest ≤ 15 := by
  unfold dtOffset
  rw [land_15_eq_mod]
  have := Nat.mod_lt (digest.getD (digest.length - 1) 0) (y := 16) (by norm_num)
  omega

theorem dtBinary_lt (digest : List Nat) :
    dtBinary digest < 2 ^ 31 := by
  unfold dtBinary
  set off := dtOffset digest
  have h0 : (digest.getD off 0) &&& 127 < 128 := by
    rw [land_127_eq_mod]
    exact Nat.mod_lt _ (by norm_num)
  have hbyte : ∀ i : Nat, (digest.getD i 0) &&& 255 < 256 := by
    intro i
    rw [land_255_eq_mod]
    exact Nat.mod_lt _ (by norm_num)
  have hA : ((digest.getD off 0) &&& 127) <<< 24 < 2 ^ 31 := by
    rw [Nat.shiftLeft_eq]
    have : ((digest.getD off 0) &&& 127) * 2 ^ 24 < 128 * 2 ^ 24 :=
      (Nat.mul_lt_mul_right (by norm_num)).mpr h0
    calc ((digest.getD off 0) &&& 127) * 2 ^ 24 < 128 * 2 ^ 24 := this
    _ = 2 ^ 31 := by norm_num
  have hB : ((digest.getD (off + 1) 0) &&& 255) <<< 16 < 2 ^ 31 := by
    rw [Nat.shiftLeft_eq]
    have : ((digest.getD (off + 1) 0) &&& 255) * 2 ^ 16 < 256 * 2 ^ 16 :=
      (Nat.mul_lt_mul_right (by norm_num)).mpr (hbyte _)
    calc ((digest.getD (off + 1) 0) &&& 255) * 2 ^ 16 < 256 * 2 ^ 16 := this
    _ ≤ 2 ^ 31 := by norm_num
  have hC : ((digest.getD (off + 2) 0) &&& 255) <<< 8 < 2 ^ 31 := by
    rw [Nat.shiftLeft_eq]
    have : ((digest.getD (off + 2) 0) &&& 255) * 2 ^ 8 < 256 * 2 ^ 8 :=
      (Nat.mul_lt_mul_right (by norm_num)).mpr (hbyte _)
    calc ((digest.getD (off + 2) 0) &&& 255) * 2 ^ 8 < 256 * 2 ^ 8 := this
    _ ≤ 2 ^ 31 := by norm_num
  have hD : (digest.getD (off + 3) 0) &&& 255 < 2 ^ 31 := by
    have := hbyte (off + 3)
    omega
  exact Nat.or_lt_two_pow (Nat.or_lt_two_pow (Nat.or_lt_two_pow hA hB) hC) hD

/-! ## Claims C5, C8, C6, C1, C4, C10 -/

/-- Claim C5: for every window length `w > 0` and every clock reading,
`getTimeRemaining` returns `w - (round(current unix seconds) mod w)`, the
result lies in `[1, w]` inclusive, and when the modulo is exactly 0 the
result equals `w`, never 0. -/
theorem claim_C5 (ms w : Nat) (hw : 0 < w) :
    getTimeRemaining ms w = w - epochOf ms % w ∧
      1 ≤ getTimeRemaining ms w ∧ getTimeRemaining ms w ≤ w ∧
      (epochOf ms % w = 0 → getTimeRemaining ms w = w) := by
  have hmod : epochOf ms % w < w := Nat.mod_lt _ hw
  refine ⟨rfl, ?_, ?_, ?_⟩ <;> unfold getTimeRemaining <;> omega

/-- Claim C5 witness: at the window boundary (epoch 30, window 30, i.e. a
clock reading of 29750 ms whose rounded epoch is 30) the result is the
full window length 30. -/
theorem claim_C5_witness :
    getTimeRemaining 29750 30 = 30 ∧ 1 ≤ getTimeRemaining 29750 30 ∧
      getTimeRemaining 29750 30 ≤ 30 :=
  ⟨(claim_C5 29750 30 (by norm_num)).2.2.2 (by decide),
   (claim_C5 29750 30 (by norm_num)).2.1,
   (claim_C5 29750 30 (by norm_num)).2.2.1⟩

/-- Claim C8: `generateTOTP` is a pure function of
`(secret, epoch, window)` — two runs with equal rounded epochs and equal
windows produce identical code strings. -/
theorem claim_C8 (s : List Char) (ms1 ms2 w : Nat) (h : epochOf ms1 = epochOf ms2) :
    generateTOTP s ms1 w = generateTOTP s ms2 w := by
  unfold generateTOTP generateTOTPWith
  rw [h]

/-- Claim C8 witness: two clock readings within the same rounded second
(1000 ms and 1400 ms) produce the same code. -/
theorem claim_C8_witness :
    generateTOTP ("AA".toList) 1000 30 = generateTOTP ("AA".toList) 1400 30 :=
  claim_C8 ("AA".toList) 1000 1400 30 (by decide)

/-- Claim C6 counterexample: at counter value `2^32` the source writes an
all-zero 8-byte message (`setUint32` truncates to 32 bits and the high
four bytes are hard-coded zero), which differs from the 64-bit big-endian
representation of the counter; so the buffer is not "the 64-bit big-endian
representation of counter" for every counter value. -/
theorem claim_C6_counterexample :
    timeBuffer (2 ^ 32) = [0, 0, 0, 0, 0, 0, 0, 0] ∧
      be64 (2 ^ 32) = [0, 0, 0, 1, 0, 0, 0, 0] ∧
      timeBuffer (2 ^ 32) ≠ be64 (2 ^ 32) := by decide

/-- Claim C6 (amended): the epoch is obtained by rounding (not truncating)
the millisecond clock to the nearest whole second (`round` is Mathlib's
round-half-up, matching `Math.round`); the 8-byte message always has its
high four bytes zero and its low four bytes hold `counter mod 2^32`
big-endian; whenever `counter < 2^32` (every date before 2106 at the
default 30-second window) this equals the full 64-bit big-endian
representation of the counter. -/
theorem claim_C6_amended (ms t : Nat) :
    (epochOf ms : ℤ) = round ((ms : ℚ) / 1000) ∧
      (timeBuffer t).length = 8 ∧
      (timeBuffer t).take 4 = [0, 0, 0, 0] ∧
      beValue ((timeBuffer t).drop 4) = t % 2 ^ 32 ∧
      (t < 2 ^ 32 → timeBuffer t = be64 t) := by
  refine ⟨epochOf_eq_round ms, ?_, rfl, ?_, ?_⟩
  · simp [timeBuffer, beBytes_length]
  · show beValue (beBytes 4 t) = t % 2 ^ 32
    rw [beValue_beBytes]
    norm_num
  · intro ht
    show [0, 0, 0, 0] ++ beBytes 4 t = be64 t
    unfold be64
    rw [show (8 : Nat) = 4 + 4 by norm_num, beBytes_add 4 4 t]
    rw [Nat.div_eq_of_lt (by calc t < 2 ^ 32 := ht
      _ = 256 ^ 4 := by norm_num)]
    rfl

/-- Claim C6 witness: the always-zero high bytes and the 64-bit round trip
at the concrete counter 5. -/
theorem claim_C6_witness : timeBuffer 5 = be64 5 :=
  (claim_C6_amended 0 5).2.2.2.2 (by norm_num)

/-- Claim C1 counterexample: the input `"----"` normalizes (under either
normalization order) to four characters, none of which is in the Base32
alphabet, yet `base32ToBuffer` returns the two-byte sequence `[0, 0]` —
the pre-sized buffer of `⌊4·5/8⌋ = 2` zero bytes — not a zero-length
sequence; the returned length is the capacity hint, not the emission
count. -/
theorem claim_C1_counterexample :
    (∀ c ∈ specNormalize ("----".toList), b32Index c = none) ∧
      base32ToBuffer ("----".toList) = [0, 0] ∧
      base32ToBuffer ("----".toList) ≠ [] := by decide

/-- Claim C1 (amended): when the source-normalized input contains zero
valid alphabet characters the decoder returns the all-zero byte sequence
of length `⌊len(normalized)·5/8⌋` (the pre-sized capacity hint) — which is
zero-length only when that capacity is zero; in general the returned
length is always the capacity hint, the emission loop filling a prefix and
the rest staying zero. -/
theorem claim_C1_amended (s : List Char)
    (h : ∀ c ∈ cleanStr s, b32Index c = none) :
    base32ToBuffer s = List.replicate ((cleanStr s).length * 5 / 8) 0 := by
  have he : emittedBytes s = [] := by
    unfold emittedBytes
    rw [foldl_specScanStep_invalid (cleanStr s) ⟨0, 0, []⟩ h]
  rw [base32ToBuffer_eq_padded, he]
  simp

/-- Claim C1 witness: the all-invalid input `"----"` yields the two-byte
all-zero buffer. -/
theorem claim_C1_witness :
    base32ToBuffer ("----".toList)
      = List.replicate ((cleanStr ("----".toList)).length * 5 / 8) 0 :=
  claim_C1_amended ("----".toList) (by decide)

/-- Claim C4 counterexample: on the input `"A= "` the source decoder and
the spec's reference lenient decode disagree — the source normalizes in
the order uppercase / strip trailing `'='` / strip whitespace, so the
trailing space shields the `'='` from being stripped and the normalized
length is 2, giving a pre-sized (and returned) buffer of one zero byte,
while the spec's decode (whitespace first, then trailing `'='`, emitted
bytes only) returns the empty sequence. -/
theorem claim_C4_counterexample :
    base32ToBuffer ("A= ".toList) = [0] ∧
      specBase32Decode ("A= ".toList) = [] ∧
      base32ToBuffer ("A= ".toList) ≠ specBase32Decode ("A= ".toList) := by decide

/-- Claim C4 (amended): `base32ToBuffer` equals the reference lenient scan
(the spec's accumulator/emission loop) applied to the source-order
normalization (uppercase, strip trailing `'='`, then strip whitespace),
right-padded with zero bytes to the pre-sized capacity
`⌊len(normalized)·5/8⌋`. -/
theorem claim_C4_amended (s : List Char) :
    base32ToBuffer s = emittedBytes s ++
      List.replicate ((cleanStr s).length * 5 / 8 - (emittedBytes s).length) 0 :=
  base32ToBuffer_eq_padded s

/-- Claim C10: for a 20-byte digest the dynamic-truncation accesses are in
bounds — the offset is at most 15, so all four reads index into the
digest — and the combined value is below `2^31`. -/
theorem claim_C10 (digest : List Nat) (h20 : digest.length = 20)
    (hb : ∀ b ∈ digest, b < 256) :
    dtOffset digest ≤ 15 ∧ dtOffset digest + 3 ≤ 19 ∧
      dtOffset digest + 3 < digest.length ∧ dtBinary digest < 2 ^ 31 := by
  have := dtOffset_le digest
  exact ⟨this, by omega, by omega, dtBinary_lt digest⟩

/-- Claim C10 witness: the bounds at the concrete digest `0, 1, …, 19`. -/
theorem claim_C10_witness :
    dtOffset (List.range 20) ≤ 15 ∧ dtOffset (List.range 20) + 3 ≤ 19 ∧
      dtOffset (List.range 20) + 3 < (List.range 20).length ∧
      dtBinary (List.range 20) < 2 ^ 31 :=
  claim_C10 (List.range 20) (by simp) (by decide)

/-- Claim C2: for every 20-byte digest, `generateTOTP`'s truncation takes
`offset = digest[19] & 0x0F`, combines
`binary = (digest[offset] & 0x7F) << 24 | digest[offset+1] << 16 |
digest[offset+2] << 8 | digest[offset+3]`, takes `otp = binary mod 10^6`,
and renders `otp` as a decimal string left-padded with `'0'` to exactly
six characters: the rendered string has length 6, consists only of
decimal digits, and denotes exactly `otp` (so every `otp < 100000` keeps
its leading zeros at fixed six-character width). -/
theorem claim_C2 (digest : List Nat) (h20 : digest.length = 20)
    (hb : ∀ b ∈ digest, b < 256) :
    dtOffset digest = (digest.getD 19 0) &&& 0x0f ∧
    dtBinary digest
      = (((digest.getD (dtOffset digest) 0) &&& 0x7f) <<< 24) |||
        ((digest.getD (dtOffset digest + 1) 0) <<< 16) |||
        ((digest.getD (dtOffset digest + 2) 0) <<< 8) |||
        (digest.getD (dtOffset digest + 3) 0) ∧
    (truncateCode digest).length = 6 ∧
    (truncateCode digest).toList.all (fun c => '0' ≤ c && c ≤ '9') = true ∧
    decimalValue (truncateCode digest).toList = dtBinary digest % 1000000 := by
  have hoff : dtOffset digest = (digest.getD 19 0) &&& 0x0f := by
    unfold dtOffset
    rw [h20]
  have hoff15 := dtOffset_le digest
  have hmask : ∀ i, i < 20 → (digest.getD i 0) &&& 255 = digest.getD i 0 := by
    intro i hi
    rw [land_255_eq_mod]
    exact Nat.mod_eq_of_lt (getD_lt_of_bound (by omega) hb)
  refine ⟨hoff, ?_, truncateCode_length digest, ?_, decimalValue_truncateCode digest⟩
  · simp only [dtBinary]
    rw [hmask (dtOffset digest + 1) (by omega), hmask (dtOffset digest + 2) (by omega),
      hmask (dtOffset digest + 3) (by omega)]
  · have h6 := truncateCode_sixDigit digest
    simp only [isSixDigitCode, Bool.and_eq_true] at h6
    exact h6.2

/-- Claim C2 witness: the format facts at the concrete digest `0, …, 19`. -/
theorem claim_C2_witness :
    (truncateCode (List.range 20)).length = 6 ∧
      decimalValue (truncateCode (List.range 20)).toList
        = dtBinary (List.range 20) % 1000000 :=
  ⟨(claim_C2 (List.range 20) (by simp) (by decide)).2.2.1,
   (claim_C2 (List.range 20) (by simp) (by decide)).2.2.2.2⟩

/-- Claim C3: for any keyed-hash oracle (the platform primitive, whose
failure the `catch` converts), `generateTOTP` returns `"INVALID"` exactly
when the secret decodes to an empty byte sequence, returns `"ERROR"` when
the underlying HMAC computation fails, and otherwise returns a six-digit
code; the function is total (no exception reaches the caller) and the
three outcomes are distinguishable; in particular the secrets `""` and
`"===="` both yield `"INVALID"`. -/
theorem claim_C3 :
    (∀ (hm : List Nat → List Nat → Option (List Nat)) (s : List Char) (ms w : Nat),
        (generateTOTPWith hm s ms w = "INVALID" ↔ base32ToBuffer s = []) ∧
        (base32ToBuffer s ≠ [] →
          hm (base32ToBuffer s) (timeBuffer (epochOf ms / w)) = none →
          generateTOTPWith hm s ms w = "ERROR") ∧
        (generateTOTPWith hm s ms w = "INVALID" ∨
          generateTOTPWith hm s ms w = "ERROR" ∨
          isSixDigitCode (generateTOTPWith hm s ms w) = true)) ∧
    generateTOTP ("".toList) 0 30 = "INVALID" ∧
    generateTOTP ("====".toList) 0 30 = "INVALID" ∧
    isSixDigitCode "INVALID" = false ∧ isSixDigitCode "ERROR" = false ∧
    ("INVALID" : String) ≠ "ERROR" := by
  refine ⟨?_, by decide, by decide, by decide, by decide, by decide⟩
  intro hm s ms w
  by_cases hk : (base32ToBuffer s).length = 0
  · have hnil : base32ToBuffer s = [] := List.length_eq_zero.1 hk
    have hres : generateTOTPWith hm s ms w = "INVALID" := by
      simp only [generateTOTPWith, if_pos hk]
    rw [hres]
    exact ⟨⟨fun _ => hnil, fun _ => rfl⟩, fun hne _ => absurd hnil hne, Or.inl rfl⟩
  · have hne : base32ToBuffer s ≠ [] := by
      intro h
      rw [h] at hk
      exact hk rfl
    cases hhm : hm (base32ToBuffer s) (timeBuffer (epochOf ms / w)) with
    | none =>
      have hres : generateTOTPWith hm s ms w = "ERROR" := by
        simp only [generateTOTPWith, if_neg hk, hhm]
      rw [hres]
      refine ⟨⟨fun h => absurd h (by decide), fun h => absurd h hne⟩,
        fun _ _ => rfl, Or.inr (Or.inl rfl)⟩
    | some digest =>
      have hres : generateTOTPWith hm s ms w = truncateCode digest := by
        simp only [generateTOTPWith, if_neg hk, hhm]
      rw [hres]
      refine ⟨⟨fun h => absurd h (truncateCode_ne_INVALID digest), fun h => absurd h hne⟩,
        fun _ h => absurd h (by simp),
        Or.inr (Or.inr (truncateCode_sixDigit digest))⟩

/-- Claim C3 witness: with an oracle that fails (models a throwing
WebCrypto) on the decodable secret `"AA"`, the result is the `"ERROR"`
sentinel. -/
theorem claim_C3_witness :
    generateTOTPWith (fun _ _ => none) ("AA".toList) 0 30 = "ERROR" :=
  (claim_C3.1 (fun _ _ => none) ("AA".toList) 0 30).2.1 (by decide) rfl

/-! ## Claim C7: validator strictness versus decoder leniency -/

theorem takeWhile_append_all {p : Char → Bool} (l1 l2 : List Char)
    (h : ∀ c ∈ l1, p c = true) :
    (l1 ++ l2).takeWhile p = l1 ++ l2.takeWhile p := by
  induction l1 with
  | nil => simp
  | cons x t ih =>
    have hx : p x = true := h x (by simp)
    simp only [List.cons_append, List.takeWhile_cons_of_pos hx, List.cons.injEq, true_and]
    exact ih (fun c hc => h c (by simp [hc]))

theorem dropWhile_append_all {p : Char → Bool} (l1 l2 : List Char)
    (h : ∀ c ∈ l1, p c = true) :
    (l1 ++ l2).dropWhile p = l2.dropWhile p := by
  induction l1 with
  | nil => simp
  | cons x t ih =>
    have hx : p x = true := h x (by simp)
    simp only [List.cons_append, List.dropWhile_cons_of_pos hx]
    exact ih (fun c hc => h c (by simp [hc]))

theorem takeWhile_eq_nil_of_all_eq {l : List Char}
    (h : ∀ c ∈ l, c = '=') : l.takeWhile isB32AlphaChar = [] := by
  cases l with
  | nil => rfl
  | cons x t =>
    have hx : x = '=' := h x (by simp)
    subst hx
    exact List.takeWhile_cons_of_neg (by decide)

theorem dropWhile_eq_self_of_all_eq {l : List Char}
    (h : ∀ c ∈ l, c = '=') : l.dropWhile isB32AlphaChar = l := by
  cases l with
  | nil => rfl
  | cons x t =>
    have hx : x = '=' := h x (by simp)
    subst hx
    exact List.dropWhile_cons_of_neg (by decide)

/-- Claim C7: the validation predicate is strictly stricter than the
decoder — `isValidBase32` accepts exactly the nonempty strings whose
whitespace-stripped form is a nonempty run of (case-insensitive) alphabet
characters followed only by `'='`; in particular `"JBSW-Y3DP"` (stray
`'-'`) is rejected by the validator, while `base32ToBuffer` silently skips
the `'-'` and still decodes the remaining valid characters to a non-empty
byte sequence. -/
theorem claim_C7 :
    (∀ s : List Char,
        isValidBase32 s = true ↔
          s ≠ [] ∧ ∃ p q : List Char,
            s.filter (fun c => !(isJsWhitespace c)) = p ++ q ∧ p ≠ [] ∧
            (∀ c ∈ p, isB32AlphaChar c = true) ∧ (∀ c ∈ q, c = '=')) ∧
    isValidBase32 ("JBSW-Y3DP".toList) = false ∧
    base32ToBuffer ("JBSW-Y3DP".toList) = [72, 101, 108, 108, 111] ∧
    base32ToBuffer ("JBSW-Y3DP".toList) ≠ [] := by
  refine ⟨?_, by decide, by decide, by decide⟩
  intro s
  by_cases hs : s.isEmpty
  · have hnil : s = [] := by
      cases s with
      | nil => rfl
      | cons x t => simp at hs
    subst hnil
    constructor
    · intro h
      exact absurd h (by decide)
    · rintro ⟨hne, -⟩
      exact absurd rfl hne
  · have hsne : s ≠ [] := by
      cases s with
      | nil => simp at hs
      | cons x t => simp
    have hval : isValidBase32 s =
        (!((s.filter (fun c => !(isJsWhitespace c))).takeWhile isB32AlphaChar).isEmpty &&
          ((s.filter (fun c => !(isJsWhitespace c))).dropWhile isB32AlphaChar).all
            (fun c => c = '=')) := by
      simp only [isValidBase32, if_neg hs]
    constructor
    · intro h
      rw [hval, Bool.and_eq_true] at h
      obtain ⟨h1, h2⟩ := h
      refine ⟨hsne, (s.filter (fun c => !(isJsWhitespace c))).takeWhile isB32AlphaChar,
        (s.filter (fun c => !(isJsWhitespace c))).dropWhile isB32AlphaChar,
        (List.takeWhile_append_dropWhile isB32AlphaChar
          (s.filter (fun c => !(isJsWhitespace c)))).symm, ?_, ?_, ?_⟩
      · intro hnil
        rw [hnil] at h1
        exact absurd h1 (by decide)
      · intro c hc
        exact List.mem_takeWhile_imp hc
      · intro c hc
        have := List.all_eq_true.1 h2 c hc
        simpa using this
    · rintro ⟨-, p, q, hpq, hpne, hpa, hq⟩
      rw [hval, hpq, Bool.and_eq_true]
      constructor
      · rw [takeWhile_append_all p q hpa, takeWhile_eq_nil_of_all_eq hq]
        simpa using hpne
      · rw [dropWhile_append_all p q hpa, dropWhile_eq_self_of_all_eq hq,
          List.all_eq_true]
        intro c hc
        simpa using hq c hc

set_option maxRecDepth 100000

/-- Claim C9: for the RFC 6238 test secret `GEZDGNBVGY3TQOJQGEZDGNBVGY3TQOJQ`
(the Base32 encoding of the ASCII key `12345678901234567890`) at the fixed
Unix time 59 s (59000 ms, counter 1 at the 30-second window), `generateTOTP`
produces exactly the published SHA-1 test-vector code: the 8-digit vector
value is 94287082, whose 6-digit truncation `287082` the engine renders. -/
theorem claim_C9 :
    generateTOTP ("GEZDGNBVGY3TQOJQGEZDGNBVGY3TQOJQ".toList) 59000 30 = "287082" := by
  rfl
